import Mathlib

/-!
# Verification of the CIDR-allocation core of pulumi-eks-ml

The repository's algorithmic core consists of two pure functions,
`region_to_cidr` and `calculate_subnets`, exported from
`pulumi_eks_ml.vpc` and implemented in `pulumi_eks_ml/vpc/utils.py`.
That module is absent from the source tree (only its unit tests in
`tests/unit/test_vpc.py` and its caller `vpc/multi_region.py` are
present), so both functions are modelled here from the specification,
faithful to its contracts and to the behaviour the unit tests pin down.
-/

instance {ε α : Type} [DecidableEq ε] [DecidableEq α] :
    DecidableEq (Except ε α) := fun a b =>
  match a, b with
  | Except.error e, Except.error f =>
    if h : e = f then isTrue (by rw [h])
    else isFalse (by intro hc; cases hc; exact h rfl)
  | Except.error _, Except.ok _ => isFalse (by intro hc; cases hc)
  | Except.ok _, Except.error _ => isFalse (by intro hc; cases hc)
  | Except.ok x, Except.ok y =>
    if h : x = y then isTrue (by rw [h])
    else isFalse (by intro hc; cases hc; exact h rfl)

/-- An IPv4 CIDR block `a.b.c.d/plen`: the network address as a 32-bit
natural number together with the prefix length. -/
structure Cidr where
  addr : Nat
  plen : Nat
deriving DecidableEq

/-- Number of addresses in the block (`2 ^ (32 - plen)`). -/
def Cidr.size (c : Cidr) : Nat := 2 ^ (32 - c.plen)

/-- One past the last address of the block (exclusive upper end). -/
def Cidr.stop (c : Cidr) : Nat := c.addr + c.size

/-- The 32-bit address of dotted quad `a.b.c.d`. -/
def ipv4 (a b c d : Nat) : Nat := ((a * 256 + b) * 256 + c) * 256 + d

/-- A CIDR block is valid when the prefix length is at most 32, the
address fits in 32 bits and the host bits are zero (it denotes a
network, not a host). -/
def isValidCidr (c : Cidr) : Prop :=
  c.plen ≤ 32 ∧ c.addr < 2 ^ 32 ∧ c.addr % c.size = 0

instance (c : Cidr) : Decidable (isValidCidr c) := by
  unfold isValidCidr; infer_instance

/-- Two blocks overlap when their address intervals intersect
(mirrors `ipaddress.IPv4Network.overlaps`). -/
def overlaps (a b : Cidr) : Prop :=
  max a.addr b.addr < min a.stop b.stop

instance (a b : Cidr) : Decidable (overlaps a b) := by
  unfold overlaps; infer_instance

/-- `subnetOf a b`: block `a` lies inside block `b`
(mirrors `ipaddress.IPv4Network.subnet_of`). -/
def subnetOf (a b : Cidr) : Prop :=
  b.addr ≤ a.addr ∧ a.stop ≤ b.stop

instance (a b : Cidr) : Decidable (subnetOf a b) := by
  unfold subnetOf; infer_instance

/-- Address `x` lies inside block `c`. -/
def Cidr.mem (c : Cidr) (x : Nat) : Prop :=
  c.addr ≤ x ∧ x < c.stop

instance (c : Cidr) (x : Nat) : Decidable (c.mem x) := by
  unfold Cidr.mem; infer_instance

/-- Modelled from the spec: the fixed known-region table of
`region_to_cidr` (its module `pulumi_eks_ml/vpc/utils.py` is missing
from the sources).  The spec and the unit test pin down exactly one
entry, `us-east-1 ↦ 10.1.0.0/16` (second octet 1); all known second
octets lie outside the `[100, 199]` range reserved for hash-derived
assignments. -/
def knownRegions : List (String × Nat) := [("us-east-1", 1)]

/-- Modelled from the spec: a stable non-cryptographic string hash
("a non-cryptographic string hash reduced modulo the reserved range"),
a pure function of the characters of the region string. -/
def regionHash (r : String) : Nat :=
  r.data.foldl (fun a c => (a * 31 + c.toNat) % 4294967296) 0

/-- Modelled from the spec: the second octet `X` chosen by
`region_to_cidr` — the pre-assigned value for a region in the fixed
table, otherwise `100 + hash mod 100`, deterministically in
`[100, 199]`. -/
def regionOctet (r : String) : Nat :=
  match knownRegions.lookup r with
  | some x => x
  | none => 100 + regionHash r % 100

/-- The CIDR string `10.X.0.0/16` for second octet `X`. -/
def cidrStringOf (x : Nat) : String :=
  "10." ++ toString x ++ ".0.0/16"

/-- Modelled from the spec: `region_to_cidr` — validates that the
region string is non-empty, then returns `10.X.0.0/16` with `X` the
table entry for a known region and the hash-derived octet otherwise. -/
def region_to_cidr (r : String) : Except String String :=
  if r = "" then Except.error "region must be a non-empty string"
  else Except.ok (cidrStringOf (regionOctet r))

/-- Modelled from the spec: the bounded linear search of
`calculate_subnets` over candidate private prefix lengths.  Starting
at `p` with `fuel` candidates remaining, return the first prefix
length whose block count `2 ^ (p - vpcPlen)` strictly exceeds
`numAzs`. -/
def findPlenGo (vpcPlen numAzs p fuel : Nat) : Option Nat :=
  match fuel with
  | 0 => none
  | fuel' + 1 =>
    if numAzs < 2 ^ (p - vpcPlen) then some p
    else findPlenGo vpcPlen numAzs (p + 1) fuel'

/-- Modelled from the spec: search increasing prefix lengths from the
VPC's own prefix length up to the ceiling (candidates `< 29`, as in
the test oracle `range(vpc_network.prefixlen, 29)`), picking the
smallest one providing strictly more than `numAzs` blocks. -/
def findPrivatePlen (vpcPlen numAzs : Nat) : Option Nat :=
  findPlenGo vpcPlen numAzs vpcPlen (29 - vpcPlen)

/-- Modelled from the spec: `calculate_subnets` — rejects a
non-positive AZ count, rejects a VPC block too small to carve the
public `/28` ("too small"), otherwise searches for the minimal
private prefix length ("cannot provide" on failure); on success the
public block is the last `/28`-aligned block of the VPC and the
private blocks are the first `numAzs` contiguous blocks of the chosen
prefix length, in ascending address order. -/
def calculate_subnets (vpc : Cidr) (numAzs : Nat) :
    Except String (Cidr × List Cidr) :=
  if numAzs = 0 then
    Except.error "num_azs must be a positive integer"
  else if 28 < vpc.plen then
    Except.error "VPC CIDR block is too small to allocate subnets"
  else
    match findPrivatePlen vpc.plen numAzs with
    | none =>
      Except.error
        ("VPC CIDR block cannot provide " ++ toString numAzs ++
          " private subnets")
    | some p =>
      Except.ok
        (⟨vpc.addr + 2 ^ (32 - vpc.plen) - 16, 28⟩,
          (List.range numAzs).map
            (fun i => (⟨vpc.addr + i * 2 ^ (32 - p), p⟩ : Cidr)))

/-! ## Characterization of the bounded prefix-length search -/

theorem findPlenGo_some {vpcPlen numAzs p fuel r : Nat}
    (h : findPlenGo vpcPlen numAzs p fuel = some r) :
    p ≤ r ∧ r < p + fuel ∧ numAzs < 2 ^ (r - vpcPlen) ∧
      ∀ q, p ≤ q → q < r → 2 ^ (q - vpcPlen) ≤ numAzs := by
  induction fuel generalizing p with
  | zero => simp [findPlenGo] at h
  | succ f ih =>
    rw [findPlenGo] at h
    split at h
    · rename_i hlt
      cases h
      exact ⟨Nat.le_refl r, by omega, hlt,
        fun q hq hqr => absurd hqr (by omega)⟩
    · rename_i hge
      obtain ⟨h1, h2, h3, h4⟩ := ih h
      refine ⟨by omega, by omega, h3, fun q hq hqr => ?_⟩
      rcases Nat.eq_or_lt_of_le hq with heq | hlt
      · exact heq ▸ Nat.not_lt.mp hge
      · exact h4 q hlt hqr

theorem findPlenGo_none {vpcPlen numAzs p fuel : Nat}
    (h : findPlenGo vpcPlen numAzs p fuel = none) :
    ∀ q, p ≤ q → q < p + fuel → 2 ^ (q - vpcPlen) ≤ numAzs := by
  induction fuel generalizing p with
  | zero => exact fun q hq hq2 => absurd hq2 (by omega)
  | succ f ih =>
    rw [findPlenGo] at h
    split at h
    · cases h
    · rename_i hge
      intro q hq hq2
      rcases Nat.eq_or_lt_of_le hq with heq | hlt
      · exact heq ▸ Nat.not_lt.mp hge
      · exact ih h q hlt (by omega)

theorem findPrivatePlen_some {v n p : Nat}
    (h : findPrivatePlen v n = some p) :
    v ≤ p ∧ p < 29 ∧ n < 2 ^ (p - v) ∧
      ∀ q, v ≤ q → q < p → 2 ^ (q - v) ≤ n := by
  obtain ⟨h1, h2, h3, h4⟩ := findPlenGo_some h
  exact ⟨h1, by omega, h3, h4⟩

theorem findPrivatePlen_none {v n : Nat}
    (h : findPrivatePlen v n = none) :
    ∀ q, v ≤ q → q < 29 → 2 ^ (q - v) ≤ n :=
  fun q hq hq2 => findPlenGo_none h q hq (by omega)

/-- Inversion of a successful `calculate_subnets` call: the AZ count is
positive, the VPC prefix length is at most 28, and the public and
private blocks have the stated shape for the prefix length the search
returned. -/
theorem calculate_subnets_ok {vpc : Cidr} {n : Nat} {pub : Cidr}
    {privs : List Cidr}
    (h : calculate_subnets vpc n = Except.ok (pub, privs)) :
    1 ≤ n ∧ vpc.plen ≤ 28 ∧
      ∃ p, findPrivatePlen vpc.plen n = some p ∧
        pub = ⟨vpc.addr + 2 ^ (32 - vpc.plen) - 16, 28⟩ ∧
        privs = (List.range n).map
          fun i => (⟨vpc.addr + i * 2 ^ (32 - p), p⟩ : Cidr) := by
  rw [calculate_subnets] at h
  split at h
  · exact absurd h (by simp)
  · split at h
    · exact absurd h (by simp)
    · rename_i hn hplen
      split at h
      · exact absurd h (by simp)
      · rename_i p hfind
        simp only [Except.ok.injEq, Prod.mk.injEq] at h
        obtain ⟨hpub, hprivs⟩ := h
        exact ⟨by omega, by omega, p, hfind, hpub.symm, hprivs.symm⟩

/-- Shared arithmetic bound: with `n < 2 ^ (p - v)` blocks requested,
the private region plus one more block fits in the VPC, and both block
sizes are at least 16. -/
theorem calcArith {v p n : Nat} (hvp : v ≤ p) (hp : p ≤ 28)
    (hn : n < 2 ^ (p - v)) :
    n * 2 ^ (32 - p) + 2 ^ (32 - p) ≤ 2 ^ (32 - v) ∧
      16 ≤ 2 ^ (32 - p) ∧ 16 ≤ 2 ^ (32 - v) := by
  have hpow : 2 ^ (p - v) * 2 ^ (32 - p) = 2 ^ (32 - v) := by
    rw [← pow_add]
    congr 1
    omega
  have h2 : (n + 1) * 2 ^ (32 - p) ≤ 2 ^ (p - v) * 2 ^ (32 - p) :=
    Nat.mul_le_mul_right _ hn
  have h3 : 16 ≤ 2 ^ (32 - p) := by
    calc (16 : Nat) = 2 ^ 4 := by norm_num
    _ ≤ 2 ^ (32 - p) := Nat.pow_le_pow_right (by norm_num) (by omega)
  have h4 : 16 ≤ 2 ^ (32 - v) := by
    calc (16 : Nat) = 2 ^ 4 := by norm_num
    _ ≤ 2 ^ (32 - v) := Nat.pow_le_pow_right (by norm_num) (by omega)
  refine ⟨?_, h3, h4⟩
  calc n * 2 ^ (32 - p) + 2 ^ (32 - p) = (n + 1) * 2 ^ (32 - p) := by ring
  _ ≤ 2 ^ (p - v) * 2 ^ (32 - p) := h2
  _ = 2 ^ (32 - v) := hpow

/-- Membership in the private block list. -/
theorem mem_priv {A S p n : Nat} {c : Cidr}
    (hc : c ∈ (List.range n).map fun i => (⟨A + i * S, p⟩ : Cidr)) :
    ∃ i, i < n ∧ c = ⟨A + i * S, p⟩ := by
  simp only [List.mem_map, List.mem_range] at hc
  obtain ⟨i, hi, rfl⟩ := hc
  exact ⟨i, hi, rfl⟩

/-- C1: on every successful call the chosen private prefix length is
the smallest `p` at least the VPC's own prefix length whose block
count `2 ^ (p - vpc.plen)` strictly exceeds `numAzs`; the search is
bounded by the ceiling (`p < 29`); the call never succeeds when no
prefix below the ceiling accommodates `numAzs`; and in particular the
inputs `(10.0.0.0/16, 4)`, `(10.5.0.0/20, 3)` and `(10.8.0.0/22, 3)`
use private prefix lengths 19, 22 and 24. -/
theorem c1_private_plen_minimal :
    (∀ (vpc : Cidr) (numAzs : Nat) (pub : Cidr) (privs : List Cidr),
        calculate_subnets vpc numAzs = Except.ok (pub, privs) →
        ∃ p, (∀ c ∈ privs, c.plen = p) ∧ vpc.plen ≤ p ∧ p < 29 ∧
          numAzs < 2 ^ (p - vpc.plen) ∧
          ∀ q, vpc.plen ≤ q → q < p → 2 ^ (q - vpc.plen) ≤ numAzs) ∧
    (∀ (vpc : Cidr) (numAzs : Nat),
        (∀ q, vpc.plen ≤ q → q < 29 → 2 ^ (q - vpc.plen) ≤ numAzs) →
        ∀ res, calculate_subnets vpc numAzs ≠ Except.ok res) ∧
    (∃ pub privs,
        calculate_subnets ⟨ipv4 10 0 0 0, 16⟩ 4 = Except.ok (pub, privs) ∧
        ∀ c ∈ privs, c.plen = 19) ∧
    (∃ pub privs,
        calculate_subnets ⟨ipv4 10 5 0 0, 20⟩ 3 = Except.ok (pub, privs) ∧
        ∀ c ∈ privs, c.plen = 22) ∧
    (∃ pub privs,
        calculate_subnets ⟨ipv4 10 8 0 0, 22⟩ 3 = Except.ok (pub, privs) ∧
        ∀ c ∈ privs, c.plen = 24) := by
  refine ⟨?_, ?_, ?_, ?_, ?_⟩
  · intro vpc numAzs pub privs hok
    obtain ⟨hn, hplen, p, hfind, hpub, hprivs⟩ := calculate_subnets_ok hok
    obtain ⟨h1, h2, h3, h4⟩ := findPrivatePlen_some hfind
    refine ⟨p, ?_, h1, h2, h3, h4⟩
    intro c hc
    subst hprivs
    obtain ⟨i, hi, rfl⟩ := mem_priv hc
    rfl
  · intro vpc numAzs hno res hok
    obtain ⟨pub, privs⟩ := res
    obtain ⟨hn, hplen, p, hfind, _, _⟩ := calculate_subnets_ok hok
    obtain ⟨h1, h2, h3, _⟩ := findPrivatePlen_some hfind
    exact absurd h3 (Nat.not_lt.mpr (hno p h1 h2))
  · exact ⟨⟨ipv4 10 0 255 240, 28⟩,
      [⟨ipv4 10 0 0 0, 19⟩, ⟨ipv4 10 0 32 0, 19⟩,
        ⟨ipv4 10 0 64 0, 19⟩, ⟨ipv4 10 0 96 0, 19⟩],
      by decide, by decide⟩
  · exact ⟨⟨ipv4 10 5 15 240, 28⟩,
      [⟨ipv4 10 5 0 0, 22⟩, ⟨ipv4 10 5 4 0, 22⟩, ⟨ipv4 10 5 8 0, 22⟩],
      by decide, by decide⟩
  · exact ⟨⟨ipv4 10 8 3 240, 28⟩,
      [⟨ipv4 10 8 0 0, 24⟩, ⟨ipv4 10 8 1 0, 24⟩, ⟨ipv4 10 8 2 0, 24⟩],
      by decide, by decide⟩

/-- Witness for C1 at the concrete input `(10.0.0.0/16, 4)`. -/
theorem c1_witness :
    ∃ p, (∀ c ∈ ([⟨ipv4 10 0 0 0, 19⟩, ⟨ipv4 10 0 32 0, 19⟩,
        ⟨ipv4 10 0 64 0, 19⟩, ⟨ipv4 10 0 96 0, 19⟩] : List Cidr),
        c.plen = p) ∧
      (16 : Nat) ≤ p ∧ p < 29 ∧ 4 < 2 ^ (p - 16) ∧
      ∀ q, 16 ≤ q → q < p → 2 ^ (q - 16) ≤ 4 :=
  c1_private_plen_minimal.1 ⟨ipv4 10 0 0 0, 16⟩ 4
    ⟨ipv4 10 0 255 240, 28⟩ _ (by decide)

/-- C2: on every successful call with a valid VPC block, every
returned block (public and private) is a subnet of the VPC block, no
two returned blocks overlap pairwise, and in particular the public
`/28` overlaps no private block. -/
theorem c2_no_overlap (vpc : Cidr) (numAzs : Nat) (pub : Cidr)
    (privs : List Cidr) (hv : isValidCidr vpc)
    (hok : calculate_subnets vpc numAzs = Except.ok (pub, privs)) :
    (∀ c ∈ pub :: privs, subnetOf c vpc) ∧
      List.Pairwise (fun a b => ¬ overlaps a b) (pub :: privs) ∧
      ∀ c ∈ privs, ¬ overlaps pub c := by
  obtain ⟨hn, hplen, p, hfind, hpub, hprivs⟩ := calculate_subnets_ok hok
  obtain ⟨hvp, hp29, hcnt, hmin⟩ := findPrivatePlen_some hfind
  obtain ⟨hfit, h16p, h16v⟩ := calcArith hvp (by omega) hcnt
  have h428 : (2 : Nat) ^ (32 - 28) = 16 := by norm_num
  subst hpub hprivs
  have hpubpriv : ∀ c ∈ (List.range numAzs).map
      (fun i => (⟨vpc.addr + i * 2 ^ (32 - p), p⟩ : Cidr)),
      ¬ overlaps (⟨vpc.addr + 2 ^ (32 - vpc.plen) - 16, 28⟩ : Cidr) c := by
    intro c hc
    obtain ⟨i, hi, rfl⟩ := mem_priv hc
    have hsm : (i + 1) * 2 ^ (32 - p) =
        i * 2 ^ (32 - p) + 2 ^ (32 - p) := by ring
    have hmul : (i + 1) * 2 ^ (32 - p) ≤ numAzs * 2 ^ (32 - p) :=
      Nat.mul_le_mul_right _ (by omega)
    simp only [overlaps, Cidr.stop, Cidr.size, h428]
    omega
  refine ⟨?_, ?_, hpubpriv⟩
  · intro c hc
    rcases List.mem_cons.mp hc with rfl | hc
    · simp only [subnetOf, Cidr.stop, Cidr.size, h428]
      omega
    · obtain ⟨i, hi, rfl⟩ := mem_priv hc
      have hsm : (i + 1) * 2 ^ (32 - p) =
          i * 2 ^ (32 - p) + 2 ^ (32 - p) := by ring
      have hmul : (i + 1) * 2 ^ (32 - p) ≤ numAzs * 2 ^ (32 - p) :=
        Nat.mul_le_mul_right _ (by omega)
      simp only [subnetOf, Cidr.stop, Cidr.size]
      omega
  · refine List.pairwise_cons.mpr ⟨hpubpriv, ?_⟩
    rw [List.pairwise_map]
    refine (List.pairwise_lt_range numAzs).imp ?_
    intro a b hab
    have hsm : (a + 1) * 2 ^ (32 - p) =
        a * 2 ^ (32 - p) + 2 ^ (32 - p) := by ring
    have hmul : (a + 1) * 2 ^ (32 - p) ≤ b * 2 ^ (32 - p) :=
      Nat.mul_le_mul_right _ (by omega)
    simp only [overlaps, Cidr.stop, Cidr.size]
    omega

/-- Witness for C2 at the concrete input `(10.0.0.0/16, 2)`. -/
theorem c2_witness :
    (∀ c ∈ ((⟨ipv4 10 0 255 240, 28⟩ : Cidr) ::
        [⟨ipv4 10 0 0 0, 18⟩, ⟨ipv4 10 0 64 0, 18⟩]),
      subnetOf c ⟨ipv4 10 0 0 0, 16⟩) ∧
    List.Pairwise (fun a b => ¬ overlaps a b)
      ((⟨ipv4 10 0 255 240, 28⟩ : Cidr) ::
        [⟨ipv4 10 0 0 0, 18⟩, ⟨ipv4 10 0 64 0, 18⟩]) ∧
    ∀ c ∈ ([⟨ipv4 10 0 0 0, 18⟩, ⟨ipv4 10 0 64 0, 18⟩] : List Cidr),
      ¬ overlaps ⟨ipv4 10 0 255 240, 28⟩ c :=
  c2_no_overlap ⟨ipv4 10 0 0 0, 16⟩ 2 ⟨ipv4 10 0 255 240, 28⟩
    [⟨ipv4 10 0 0 0, 18⟩, ⟨ipv4 10 0 64 0, 18⟩] (by decide) (by decide)

/-- C4: every successful call returns exactly one public block of
prefix length exactly 28 and exactly `numAzs` private blocks, all
private blocks sharing one prefix length. -/
theorem c4_shape (vpc : Cidr) (numAzs : Nat) (pub : Cidr)
    (privs : List Cidr)
    (hok : calculate_subnets vpc numAzs = Except.ok (pub, privs)) :
    privs.length = numAzs ∧ pub.plen = 28 ∧
      ∃ p, ∀ c ∈ privs, c.plen = p := by
  obtain ⟨hn, hplen, p, hfind, hpub, hprivs⟩ := calculate_subnets_ok hok
  subst hpub hprivs
  refine ⟨by simp, rfl, p, ?_⟩
  intro c hc
  obtain ⟨i, hi, rfl⟩ := mem_priv hc
  rfl

/-- Witness for C4 at the concrete input `(10.0.0.0/16, 2)`. -/
theorem c4_witness :
    ([⟨ipv4 10 0 0 0, 18⟩, ⟨ipv4 10 0 64 0, 18⟩] : List Cidr).length = 2 ∧
    (⟨ipv4 10 0 255 240, 28⟩ : Cidr).plen = 28 ∧
    ∃ p, ∀ c ∈ ([⟨ipv4 10 0 0 0, 18⟩, ⟨ipv4 10 0 64 0, 18⟩] : List Cidr),
      c.plen = p :=
  c4_shape ⟨ipv4 10 0 0 0, 16⟩ 2 ⟨ipv4 10 0 255 240, 28⟩
    [⟨ipv4 10 0 0 0, 18⟩, ⟨ipv4 10 0 64 0, 18⟩] (by decide)

/-- C3: on every successful call with a valid VPC block the private
blocks are contiguous in ascending address order (each block's first
address immediately follows the previous block's last address), the
lowest private block starts exactly at the VPC's network address, and
the public block is exactly the highest-addressed `/28`-aligned
subnet of the VPC block; in particular `(10.42.0.0/16, 3)` returns
exactly `10.42.0.0/18`, `10.42.64.0/18`, `10.42.128.0/18` (private)
and `10.42.255.240/28` (public). -/
theorem c3_contiguity :
    (∀ (vpc : Cidr) (numAzs : Nat) (pub : Cidr) (privs : List Cidr),
        isValidCidr vpc →
        calculate_subnets vpc numAzs = Except.ok (pub, privs) →
        List.Chain' (fun a b => a.stop = b.addr) privs ∧
        (∃ c, privs.head? = some c ∧ c.addr = vpc.addr) ∧
        pub.plen = 28 ∧ pub.addr % 16 = 0 ∧ subnetOf pub vpc ∧
        ∀ q : Cidr, q.plen = 28 → q.addr % 16 = 0 → subnetOf q vpc →
          q.addr ≤ pub.addr) ∧
    calculate_subnets ⟨ipv4 10 42 0 0, 16⟩ 3 =
      Except.ok (⟨ipv4 10 42 255 240, 28⟩,
        [⟨ipv4 10 42 0 0, 18⟩, ⟨ipv4 10 42 64 0, 18⟩,
          ⟨ipv4 10 42 128 0, 18⟩]) := by
  refine ⟨?_, by decide⟩
  intro vpc numAzs pub privs hv hok
  obtain ⟨hn, hplen, p, hfind, hpub, hprivs⟩ := calculate_subnets_ok hok
  obtain ⟨hvp, hp29, hcnt, hmin⟩ := findPrivatePlen_some hfind
  obtain ⟨hfit, h16p, h16v⟩ := calcArith hvp (by omega) hcnt
  have h428 : (2 : Nat) ^ (32 - 28) = 16 := by norm_num
  have hdvd16 : (16 : Nat) ∣ 2 ^ (32 - vpc.plen) := by
    have h16 : (16 : Nat) = 2 ^ 4 := by norm_num
    rw [h16]
    exact pow_dvd_pow 2 (by omega)
  have hdvdA : (16 : Nat) ∣ vpc.addr :=
    dvd_trans hdvd16 (Nat.dvd_of_mod_eq_zero hv.2.2)
  subst hpub hprivs
  refine ⟨?_, ?_, rfl, ?_, ?_, ?_⟩
  · rw [List.chain'_map, List.chain'_iff_get]
    intro i hlen
    simp only [List.get_range]
    simp only [Cidr.stop, Cidr.size]
    ring
  · refine ⟨⟨vpc.addr + 0 * 2 ^ (32 - p), p⟩, ?_, by simp⟩
    cases numAzs with
    | zero => omega
    | succ m =>
      rw [List.range_succ_eq_map]
      simp
  · obtain ⟨a, ha⟩ := hdvdA
    obtain ⟨s, hs⟩ := hdvd16
    show (vpc.addr + 2 ^ (32 - vpc.plen) - 16) % 16 = 0
    omega
  · simp only [subnetOf, Cidr.stop, Cidr.size, h428]
    omega
  · intro q h28 halign hsub
    simp only [subnetOf, Cidr.stop, Cidr.size, h28, h428] at hsub
    show q.addr ≤ vpc.addr + 2 ^ (32 - vpc.plen) - 16
    omega

/-- Witness for C3 at the concrete input `(10.42.0.0/16, 3)`. -/
theorem c3_witness :
    List.Chain' (fun a b => a.stop = b.addr)
      ([⟨ipv4 10 42 0 0, 18⟩, ⟨ipv4 10 42 64 0, 18⟩,
        ⟨ipv4 10 42 128 0, 18⟩] : List Cidr) ∧
    (∃ c, ([⟨ipv4 10 42 0 0, 18⟩, ⟨ipv4 10 42 64 0, 18⟩,
        ⟨ipv4 10 42 128 0, 18⟩] : List Cidr).head? = some c ∧
      c.addr = ipv4 10 42 0 0) ∧
    (⟨ipv4 10 42 255 240, 28⟩ : Cidr).plen = 28 ∧
    (⟨ipv4 10 42 255 240, 28⟩ : Cidr).addr % 16 = 0 ∧
    subnetOf ⟨ipv4 10 42 255 240, 28⟩ ⟨ipv4 10 42 0 0, 16⟩ ∧
    (∀ q : Cidr, q.plen = 28 → q.addr % 16 = 0 →
      subnetOf q ⟨ipv4 10 42 0 0, 16⟩ → q.addr ≤ ipv4 10 42 255 240) :=
  c3_contiguity.1 ⟨ipv4 10 42 0 0, 16⟩ 3 ⟨ipv4 10 42 255 240, 28⟩
    [⟨ipv4 10 42 0 0, 18⟩, ⟨ipv4 10 42 64 0, 18⟩,
      ⟨ipv4 10 42 128 0, 18⟩] (by decide) (by decide)

/-- C5: `calculate_subnets` fails with an error containing
"too small" on `(10.0.0.0/29, 1)`, fails with a distinct error
containing "cannot provide" on `(10.0.0.0/28, 1)`, fails on every
non-positive AZ count, and on every input either fails with an error
and returns no result or returns a full result (all-or-nothing). -/
theorem c5_errors :
    (∃ msg, calculate_subnets ⟨ipv4 10 0 0 0, 29⟩ 1 = Except.error msg ∧
      List.IsInfix "too small".data msg.data) ∧
    (∃ msg, calculate_subnets ⟨ipv4 10 0 0 0, 28⟩ 1 = Except.error msg ∧
      List.IsInfix "cannot provide".data msg.data ∧
      ¬ List.IsInfix "too small".data msg.data) ∧
    (∀ (vpc : Cidr) (numAzs : Nat), numAzs ≤ 0 →
      ∃ msg, calculate_subnets vpc numAzs = Except.error msg) ∧
    (∀ (vpc : Cidr) (numAzs : Nat),
      (∃ msg, calculate_subnets vpc numAzs = Except.error msg ∧
        ∀ res, calculate_subnets vpc numAzs ≠ Except.ok res) ∨
      (∃ res, calculate_subnets vpc numAzs = Except.ok res)) := by
  refine ⟨?_, ?_, ?_, ?_⟩
  · refine ⟨"VPC CIDR block is too small to allocate subnets", by decide, ?_⟩
    exact ⟨"VPC CIDR block is ".data, " to allocate subnets".data, by decide⟩
  · refine ⟨"VPC CIDR block cannot provide 1 private subnets",
      by decide, ?_, by decide⟩
    exact ⟨"VPC CIDR block ".data, " 1 private subnets".data, by decide⟩
  · intro vpc numAzs hle
    have h0 : numAzs = 0 := by omega
    subst h0
    exact ⟨"num_azs must be a positive integer", rfl⟩
  · intro vpc numAzs
    cases hres : calculate_subnets vpc numAzs with
    | error msg =>
      exact Or.inl ⟨msg, rfl, fun res hc => Except.noConfusion hc⟩
    | ok res => exact Or.inr ⟨res, rfl⟩

/-- Witness for C5: the non-positive AZ count rejection at the
concrete input `(10.0.0.0/16, 0)`. -/
theorem c5_witness :
    ∃ msg, calculate_subnets ⟨ipv4 10 0 0 0, 16⟩ 0 = Except.error msg :=
  (c5_errors.2.2.1 ⟨ipv4 10 0 0 0, 16⟩ 0 (by decide))

/-- C10: the split is not a full partition: for the valid input
`(10.0.0.0/16, 2)` the call succeeds, yet the address `10.0.192.0`
lies in the VPC block and in none of the returned blocks, and the
returned blocks together cover less than half of the VPC's address
space plus 16 addresses. -/
theorem c10_not_partition :
    calculate_subnets ⟨ipv4 10 0 0 0, 16⟩ 2 =
      Except.ok (⟨ipv4 10 0 255 240, 28⟩,
        [⟨ipv4 10 0 0 0, 18⟩, ⟨ipv4 10 0 64 0, 18⟩]) ∧
    Cidr.mem ⟨ipv4 10 0 0 0, 16⟩ (ipv4 10 0 192 0) ∧
    ¬ Cidr.mem ⟨ipv4 10 0 255 240, 28⟩ (ipv4 10 0 192 0) ∧
    (∀ c ∈ ([⟨ipv4 10 0 0 0, 18⟩, ⟨ipv4 10 0 64 0, 18⟩] : List Cidr),
      ¬ c.mem (ipv4 10 0 192 0)) ∧
    Cidr.size ⟨ipv4 10 0 0 0, 18⟩ + Cidr.size ⟨ipv4 10 0 64 0, 18⟩ +
        Cidr.size ⟨ipv4 10 0 255 240, 28⟩ =
      Cidr.size ⟨ipv4 10 0 0 0, 16⟩ / 2 + 16 ∧
    Cidr.size ⟨ipv4 10 0 0 0, 18⟩ + Cidr.size ⟨ipv4 10 0 64 0, 18⟩ +
        Cidr.size ⟨ipv4 10 0 255 240, 28⟩ <
      Cidr.size ⟨ipv4 10 0 0 0, 16⟩ := by
  refine ⟨by decide, by decide, by decide, by decide, by decide, by decide⟩

/-- Inversion of a successful lookup in the known-region table. -/
theorem lookup_knownRegions {r : String} {x : Nat}
    (h : knownRegions.lookup r = some x) : r = "us-east-1" ∧ x = 1 := by
  by_cases hr : r = "us-east-1"
  · subst hr
    have hlk : knownRegions.lookup "us-east-1" = some 1 := by decide
    rw [hlk] at h
    injection h with h
    exact ⟨rfl, h.symm⟩
  · exfalso
    have hnone : knownRegions.lookup r = none := by
      have hbeq : (r == "us-east-1") = false := beq_eq_false_iff_ne.mpr hr
      simp [knownRegions, List.lookup, hbeq]
    rw [hnone] at h
    cases h

/-- For a region absent from the table, the octet is hash-derived. -/
theorem regionOctet_unknown {r : String}
    (h : knownRegions.lookup r = none) :
    regionOctet r = 100 + regionHash r % 100 := by
  unfold regionOctet
  rw [h]

/-- For a region present in the table, the octet is the table entry. -/
theorem regionOctet_known {r : String} {x : Nat}
    (h : knownRegions.lookup r = some x) : regionOctet r = x := by
  unfold regionOctet
  rw [h]

/-- A hash-derived octet (in `[100, 199]`) never yields the block of
the known octet 1. -/
theorem cidrStringOf_unknown_ne {m : Nat} (hm : m < 100) :
    cidrStringOf (100 + m) ≠ cidrStringOf 1 := by
  interval_cases m <;> decide

/-- C6 counterexample: the two distinct non-empty unknown region
strings "Aa" and "BB" hash to the same bucket, so `region_to_cidr`
returns the same CIDR block for both — the claimed pairwise
distinctness fails. -/
theorem c6_counterexample :
    "Aa" ≠ "BB" ∧ region_to_cidr "Aa" = region_to_cidr "BB" ∧
    knownRegions.lookup "Aa" = none ∧
    knownRegions.lookup "BB" = none := by
  refine ⟨by decide, by decide, by decide, by decide⟩

/-- C6 amended: calls for distinct known regions return distinct
blocks (they determine the region), and a hash-derived block for an
unknown region never equals the pre-assigned block of any known
region; distinct unknown regions may collide. -/
theorem c6_amended :
    (∀ r s x y, knownRegions.lookup r = some x →
        knownRegions.lookup s = some y →
        region_to_cidr r = region_to_cidr s → r = s) ∧
    (∀ r s y, knownRegions.lookup r = none → (s, y) ∈ knownRegions →
        region_to_cidr r ≠ Except.ok (cidrStringOf y)) := by
  constructor
  · intro r s x y hr hs _
    rw [(lookup_knownRegions hr).1, (lookup_knownRegions hs).1]
  · intro r s y hr hs hcon
    have hy : y = 1 := by
      simp only [knownRegions, List.mem_cons, List.not_mem_nil, or_false,
        Prod.mk.injEq] at hs
      exact hs.2
    by_cases hre : r = ""
    · subst hre
      rw [region_to_cidr] at hcon
      simp at hcon
    · rw [region_to_cidr, if_neg hre] at hcon
      have heq : cidrStringOf (regionOctet r) = cidrStringOf y := by
        injection hcon
      rw [regionOctet_unknown hr, hy] at heq
      exact cidrStringOf_unknown_ne (Nat.mod_lt _ (by norm_num)) heq

/-- Witness for the amended C6 at the concrete unknown region
"me-central-1" against the known region "us-east-1". -/
theorem c6_witness :
    region_to_cidr "me-central-1" ≠ Except.ok (cidrStringOf 1) :=
  c6_amended.2 "me-central-1" "us-east-1" 1 (by decide) (by decide)

/-- C7: `region_to_cidr` is deterministic — it is a pure function of
the region string, so equal inputs give equal outputs. -/
theorem c7_deterministic (r s : String) (h : r = s) :
    region_to_cidr r = region_to_cidr s := by
  rw [h]

/-- Witness for C7 at the concrete region "me-central-1". -/
theorem c7_witness :
    region_to_cidr "me-central-1" = region_to_cidr "me-central-1" :=
  c7_deterministic "me-central-1" "me-central-1" rfl

/-- C8: for every non-empty region string the call never throws and
returns `10.X.0.0/16` with `X` in `[1, 254]`; for a region outside
the known table, `X` lies in `[100, 199]`. -/
theorem c8_output_range (r : String) (h : r ≠ "") :
    region_to_cidr r = Except.ok (cidrStringOf (regionOctet r)) ∧
    1 ≤ regionOctet r ∧ regionOctet r ≤ 254 ∧
    (knownRegions.lookup r = none →
      100 ≤ regionOctet r ∧ regionOctet r ≤ 199) := by
  have hb : (1 ≤ regionOctet r ∧ regionOctet r ≤ 254) ∧
      (knownRegions.lookup r = none →
        100 ≤ regionOctet r ∧ regionOctet r ≤ 199) := by
    cases hl : knownRegions.lookup r with
    | some x =>
      obtain ⟨-, rfl⟩ := lookup_knownRegions hl
      rw [regionOctet_known hl]
      exact ⟨⟨by norm_num, by norm_num⟩,
        fun h' => Option.noConfusion h'⟩
    | none =>
      rw [regionOctet_unknown hl]
      have hm : regionHash r % 100 < 100 := Nat.mod_lt _ (by norm_num)
      exact ⟨⟨by omega, by omega⟩, fun _ => ⟨by omega, by omega⟩⟩
  exact ⟨by rw [region_to_cidr, if_neg h], hb.1.1, hb.1.2, hb.2⟩

/-- Witness for C8 at the concrete unknown region "me-central-1". -/
theorem c8_witness :
    region_to_cidr "me-central-1" =
      Except.ok (cidrStringOf (regionOctet "me-central-1")) ∧
    1 ≤ regionOctet "me-central-1" ∧ regionOctet "me-central-1" ≤ 254 ∧
    (knownRegions.lookup "me-central-1" = none →
      100 ≤ regionOctet "me-central-1" ∧
        regionOctet "me-central-1" ≤ 199) :=
  c8_output_range "me-central-1" (by decide)

/-- C9: every region present in the known-region table is mapped to
its pre-assigned block; in particular `us-east-1` maps to
`10.1.0.0/16`. -/
theorem c9_known_table :
    (∀ r x, knownRegions.lookup r = some x →
      region_to_cidr r = Except.ok (cidrStringOf x)) ∧
    region_to_cidr "us-east-1" = Except.ok "10.1.0.0/16" := by
  constructor
  · intro r x h
    obtain ⟨hr, hx⟩ := lookup_knownRegions h
    subst hr
    subst hx
    decide
  · decide

/-- Witness for C9 at the concrete known region "us-east-1". -/
theorem c9_witness :
    region_to_cidr "us-east-1" = Except.ok (cidrStringOf 1) :=
  c9_known_table.1 "us-east-1" 1 (by decide)

